import Mathlib

set_option linter.unusedVariables false

/-!
Shallow embedding of the batch-iteration core of the SwissKnife repository:

* `swissknife/iterators/arrays.py` — the slice-based `BatchArrayIterator`;
* `swissknife/iterators/__init__.py` — the `IteratorMixin` reset in `__iter__`;
* `swissknife/files.py` — the islice/cycle-based `BatchArrayIterator`;
* `swissknife/iterators/files.py` — `FilesIterator`;
* `swissknife/transform.py` — `GeneratorPipeline`.

Python sequences become Lean `List`s, `StopIteration` becomes `Option`/a
terminal flag, constructor `ValueError`s become `Except.error`, and the
stateful iterator objects become explicit state records threaded through
step functions.  Unbounded Python `while` loops are driven by explicit fuel.
-/

namespace SwissKnife

/-- State of `swissknife.iterators.arrays.BatchArrayIterator`.

Fields mirror the Python attributes set in `__init__`: the converted input
arrays, `batch_size`, `infinite`, `same_size_batches`, and the private
`_n` (`n`), `_batch_index` (`batch_index`), `_epoch_index` (`epoch_index`). -/
structure BatchArrayIterator (α : Type) where
  arrays : List (List α)
  batch_size : Nat
  infinite : Bool
  same_size_batches : Bool
  n : Nat
  batch_index : Nat
  epoch_index : Nat
  deriving DecidableEq, Repr

/-- `_num_of_batches(arrays, batch_size, same_size)` from
`swissknife/iterators/arrays.py`: `n // batch_size` when `same_size`,
otherwise `int(math.ceil(n / batch_size))`.  For `batch_size > 0` the
Python ceiling equals `(n + batch_size - 1) / batch_size` on `Nat`
(Python raises `ZeroDivisionError` for `batch_size = 0`; no claim below
evaluates the formula there). -/
def num_of_batches (arrays : List (List α)) (batch_size : Nat) (same_size : Bool) : Nat :=
  let n := (arrays.headD []).length
  if same_size then n / batch_size else (n + batch_size - 1) / batch_size

/-- `BatchArrayIterator.__init__` from `swissknife/iterators/arrays.py`:
first the incompatible-configuration check (`not infinite and
same_size_batches` raises `ValueError`), then `_convert_to_arrays`
(which raises `ValueError` unless all arrays share the first array's
length), then the attribute assignments with `_batch_index = 0` and
`_epoch_index = 0`. -/
def mkBatchArrayIterator (array : List α) (arrays : List (List α))
    (batch_size : Nat) (infinite : Bool) (same_size_batches : Bool) :
    Except String (BatchArrayIterator α) :=
  if !infinite && same_size_batches then
    .error "Incompatible configuration: cannot guarantee same size of batches when yielding finite number of files."
  else if (array :: arrays).all (fun a => a.length == array.length) then
    .ok { arrays := array :: arrays
          batch_size := batch_size
          infinite := infinite
          same_size_batches := same_size_batches
          n := num_of_batches (array :: arrays) batch_size same_size_batches
          batch_index := 0
          epoch_index := 0 }
  else
    .error "arrays should have the same length"

/-- `BatchArrayIterator._take_next_batch(array)`: the positional slice
`array[start:end]` with `start = batch_index * batch_size` and
`end = (batch_index + 1) * batch_size`; Python slicing clamps at the end
of the list exactly as `drop`/`take` do. -/
def take_next_batch (it : BatchArrayIterator α) (array : List α) : List α :=
  (array.drop (it.batch_index * it.batch_size)).take it.batch_size

/-- `BatchArrayIterator.next` from `swissknife/iterators/arrays.py`.
`none` is `StopIteration`; otherwise the call returns the tuple of
per-array slices (Python returns `batches[0]` when a single array was
passed — the tuple's head — and the tuple itself otherwise) together
with the successor state. -/
def BatchArrayIterator.next (it : BatchArrayIterator α) :
    Option (List (List α) × BatchArrayIterator α) :=
  if it.n ≤ it.batch_index then
    if it.infinite = false then
      none
    else
      let it2 : BatchArrayIterator α :=
        { it with batch_index := 0, epoch_index := it.epoch_index + 1 }
      some (it2.arrays.map (take_next_batch it2),
            { it2 with batch_index := it2.batch_index + 1 })
  else
    some (it.arrays.map (take_next_batch it),
          { it with batch_index := it.batch_index + 1 })

/-- `IteratorMixin.__iter__` from `swissknife/iterators/__init__.py`:
starting a new `for` loop over the object resets `_batch_index` and
`_epoch_index` to `0` and returns the object itself. -/
def BatchArrayIterator.iterStart (it : BatchArrayIterator α) : BatchArrayIterator α :=
  { it with batch_index := 0, epoch_index := 0 }

/-- Driver: performs up to `fuel` consecutive `next()` calls, collecting the
yielded tuples in order.  The final `Bool` records whether `StopIteration`
was observed (`true`) or the driver merely ran out of fuel (`false`). -/
def runNext (fuel : Nat) (it : BatchArrayIterator α) :
    List (List (List α)) × BatchArrayIterator α × Bool :=
  match fuel with
  | 0 => ([], it, false)
  | fuel + 1 =>
    match it.next with
    | none => ([], it, true)
    | some (b, it2) =>
      let r := runNext fuel it2
      (b :: r.1, r.2)

namespace Files

/-- The `_array` attribute of the `BatchArrayIterator` in
`swissknife/files.py`: either `iter(self.array)` (a plain iterator,
modelled by its remaining suffix) or `cycle(self.array)` (modelled by the
backing list and the current offset; `cycle` of an empty list is
immediately exhausted). -/
inductive ArrView (α : Type) where
  | plain : List α → ArrView α
  | cyc : List α → Nat → ArrView α
  deriving DecidableEq, Repr

/-- `islice(self._array, 0, bs)` materialised as a list, together with the
advanced view: a plain iterator hands out its next `bs` elements; a cycle
over a non-empty list hands out `bs` consecutive elements modulo its
length. -/
def takeFrom : ArrView α → Nat → List α × ArrView α
  | .plain rest, bs => (rest.take bs, .plain (rest.drop bs))
  | .cyc arr pos, bs =>
    match arr with
    | [] => ([], .cyc [] pos)
    | a :: tl =>
      (((List.range bs).map fun j => (a :: tl).getD ((pos + j) % (a :: tl).length) a),
       .cyc (a :: tl) ((pos + bs) % (a :: tl).length))

/-- State of the `BatchArrayIterator` defined in `swissknife/files.py`:
the backing `array`, the constructor arguments, the private `_n_batches`,
the `_array` iterator (`cycle(array)` when `infinite and
same_size_batches`, else `iter(array)`) and the `_count` of batches
handed out in the current pass. -/
structure BatchArrayIterator (α : Type) where
  array : List α
  batch_size : Nat
  infinite : Bool
  same_size_batches : Bool
  n_batches : Nat
  view : ArrView α
  count : Nat
  deriving DecidableEq, Repr

/-- `BatchArrayIterator.__init__` from `swissknife/files.py`: the same
incompatible-configuration `ValueError`, then `n_batches` by floor or
ceiling division and the looped/plain iterator choice. -/
def mk (array : List α) (batch_size : Nat)
    (infinite : Bool) (same_size_batches : Bool) :
    Except String (BatchArrayIterator α) :=
  if !infinite && same_size_batches then
    .error "Incompatible configuration: cannot guarantee same size of batches when yielding finite number of files."
  else
    let n_files := array.length
    let n_batches :=
      if same_size_batches then n_files / batch_size
      else (n_files + batch_size - 1) / batch_size
    let looped := infinite && same_size_batches
    .ok { array := array
          batch_size := batch_size
          infinite := infinite
          same_size_batches := same_size_batches
          n_batches := n_batches
          view := if looped then .cyc array 0 else .plain array
          count := 0 }

/-- The `next` method of `swissknife/files.py`'s `BatchArrayIterator`:
when `infinite` and `_count == _n_batches` it replaces `_array` by a fresh
`iter(self.array)` (note: a plain iterator, even when the constructor
installed a `cycle`) and zeroes `_count`, then materialises
`islice(self._array, 0, batch_size)`. -/
def BatchArrayIterator.nextBatch (it : BatchArrayIterator α) :
    List α × BatchArrayIterator α :=
  let it1 :=
    if it.infinite = true ∧ it.count = it.n_batches then
      { it with view := .plain it.array, count := 0 }
    else it
  let tv := takeFrom it1.view it1.batch_size
  (tv.1, { it1 with view := tv.2 })

/-- `__next__` from `swissknife/files.py`: raises `StopIteration` when not
`infinite` and `_count >= _n_batches`, otherwise delegates to `next` and
increments `_count`. -/
def BatchArrayIterator.dunderNext (it : BatchArrayIterator α) :
    Option (List α × BatchArrayIterator α) :=
  if it.infinite = false ∧ it.n_batches ≤ it.count then
    none
  else
    let r := it.nextBatch
    some (r.1, { r.2 with count := r.2.count + 1 })

/-- Driver for the `files.py` iterator, analogous to `SwissKnife.runNext`. -/
def runNext (fuel : Nat) (it : BatchArrayIterator α) :
    List (List α) × BatchArrayIterator α × Bool :=
  match fuel with
  | 0 => ([], it, false)
  | fuel + 1 =>
    match it.dunderNext with
    | none => ([], it, true)
    | some (b, it2) =>
      let r := runNext fuel it2
      (b :: r.1, r.2)

end Files

/-- Python `'|' in pattern`, computed on the underlying character list. -/
def strContainsChar (s : String) (c : Char) : Bool :=
  s.data.contains c

/-- Worker for `str.split` with a one-character separator: splits the
character list at every occurrence of `c` (adjacent separators produce
empty pieces, as in Python). -/
def splitChars (c : Char) : List Char → List Char → List (List Char)
  | [], acc => [acc.reverse]
  | x :: xs, acc =>
    if x = c then acc.reverse :: splitChars c xs []
    else splitChars c xs (x :: acc)

/-- Python `pattern.split('|')` (for the one-character separator used by
`FilesIterator`). -/
def splitOnChar (s : String) (c : Char) : List String :=
  (splitChars c s.data []).map String.mk

/-- Python-style suffix test on the underlying character lists. -/
def strEndsWith (s t : String) : Bool :=
  t.data.isSuffixOf s.data

/-- Modelled from the spec: `swissknife/iterators/files.py` imports a helper
`glob` from `swissknife.utils`, but `utils.py` in the source tree defines no
such function, so the file-listing primitive is missing from `src/`.  Per
spec §4.2 the constructor "lists every direct child file in the directory
whose extension matches any pattern member, in whatever order the underlying
file-listing primitive returns them (no additional sort is guaranteed)".
A directory is modelled as the list of its child file names in listing
order; a name matches extension `ext` when it ends in `"." ++ ext`. -/
def glob (folder : List String) (extensions : List String) : List String :=
  folder.filter fun name => extensions.any fun ext => strEndsWith name ("." ++ ext)

/-- State of `swissknife.iterators.files.FilesIterator`: the constructor
arguments, the derived `_extensions` and `_files` lists, `_n`, and the
delegate `BatchArrayIterator` built over the file list. -/
structure FilesIterator where
  folder : List String
  pattern : String
  batch_size : Nat
  infinite : Bool
  same_size_batches : Bool
  extensions : List String
  files : List String
  n : Nat
  iter : BatchArrayIterator String
  deriving DecidableEq, Repr

/-- `FilesIterator.__init__` from `swissknife/iterators/files.py`: splits
the pattern on `'|'` (when present), lists the matching files once at
construction time, and delegates batching to an
`swissknife.iterators.arrays.BatchArrayIterator` over that fixed list with
the same configuration. -/
def mkFilesIterator (folder : List String) (pattern : String)
    (batch_size : Nat) (infinite : Bool) (same_size_batches : Bool) :
    Except String FilesIterator :=
  let extensions :=
    if strContainsChar pattern '|' then splitOnChar pattern '|' else [pattern]
  let files := glob folder extensions
  match mkBatchArrayIterator files [] batch_size infinite same_size_batches with
  | .error e => .error e
  | .ok it =>
    .ok { folder := folder
          pattern := pattern
          batch_size := batch_size
          infinite := infinite
          same_size_batches := same_size_batches
          extensions := extensions
          files := files
          n := files.length
          iter := it }

/-- `FilesIterator.next` delegates to the inner iterator's `next`. -/
def FilesIterator.next (fi : FilesIterator) :
    Option (List (List String) × FilesIterator) :=
  match fi.iter.next with
  | none => none
  | some (b, it2) => some (b, { fi with iter := it2 })

/-! ### `swissknife/transform.py` — `GeneratorPipeline`

The pipeline's step generators all follow the two-phase shape used by its
callers (`tests/transform/test_generator_pipeline.py`):

    while True:
        x = yield        # "awaiting input"
        yield f(x)       # "holding output"

A generator object is therefore a compute function together with its
paused position: `fresh` (never started; the pipeline's `_init` starts it
with `send(None)`, running it to the first bare `yield`, which yields
`None`), `awaiting` (paused at `x = yield`; `send(v)` computes and pauses
at `yield f(x)`, yielding `f x`), and `holding` (paused at `yield f(x)`;
`send(None)` discards the sent value, loops, and pauses again at
`x = yield`, yielding `None`).  Python `None` is `Option.none`. -/

/-- Paused position of a two-phase step generator. -/
inductive StagePos where
  | fresh
  | awaiting
  | holding
  deriving DecidableEq, Repr

/-- A step generator object: its compute function and paused position. -/
structure Stage where
  f : Option Int → Option Int
  pos : StagePos

/-- `generator.send(v)`: returns the advanced generator and the value the
generator yields in response (see the position walkthrough above). -/
def stageSend (g : Stage) (v : Option Int) : Stage × Option Int :=
  match g.pos with
  | .fresh => ({ g with pos := .awaiting }, none)
  | .awaiting => ({ g with pos := .holding }, g.f v)
  | .holding => ({ g with pos := .awaiting }, none)

/-- State of a `GeneratorPipeline`.  The `source` generator is modelled as
an infinite stream `stream` of items together with its current position
`srcPos` (the number of items it has already yielded); the `_source`
wrapper `islice(self.source, 0, self.max_iters)` is modelled by `budget`,
the number of pulls the wrapper still allows (`none` when `max_iters` is
`None` and `_source` is the bare generator).  `needReset` mirrors the
`_need_reset` list, holding indices into `steps` of the generator objects
appended during `send`. -/
structure GeneratorPipeline where
  stream : Nat → Int
  srcPos : Nat
  max_iters : Option Nat
  budget : Option Nat
  steps : List Stage
  needReset : List Nat

namespace GeneratorPipeline

/-- One pull on the wrapped source `next(self._source)`: `none` is the
`StopIteration` that the `islice` wrapper raises once its budget is spent
(it does not advance the underlying generator then). -/
def sourceNext (p : GeneratorPipeline) : Option (Int × GeneratorPipeline) :=
  match p.budget with
  | none => some (p.stream p.srcPos, { p with srcPos := p.srcPos + 1 })
  | some 0 => none
  | some (b + 1) =>
    some (p.stream p.srcPos, { p with srcPos := p.srcPos + 1, budget := some b })

/-- The `for generator in self._steps` loop inside `send`: each visited
generator is sent the current value and appended to `_need_reset` (the
appended indices are returned, offset by `i`), and the loop breaks as soon
as a generator yields `None`. -/
def sendLoop : List Stage → Nat → Option Int → List Stage × List Nat × Option Int
  | [], _, processed => ([], [], processed)
  | g :: rest, i, processed =>
    let go := stageSend g processed
    match go.2 with
    | none => (go.1 :: rest, [i], none)
    | some v =>
      let r := sendLoop rest (i + 1) (some v)
      (go.1 :: r.1, i :: r.2.1, r.2.2)

/-- `GeneratorPipeline.send(batch)`: pushes the batch through the steps,
recording every visited step in `_need_reset`, and returns the final
processed value (`none` when some step short-circuited). -/
def send (p : GeneratorPipeline) (batch : Int) : GeneratorPipeline × Option Int :=
  let r := sendLoop p.steps 0 (some batch)
  ({ p with steps := r.1, needReset := p.needReset ++ r.2.1 }, r.2.2)

/-- `generator.send(None)` applied to the step at index `i` (the yielded
value is discarded by `reset_if_needed`). -/
def sendNoneAt : List Stage → Nat → List Stage
  | [], _ => []
  | g :: rest, 0 => (stageSend g none).1 :: rest
  | g :: rest, i + 1 => g :: sendNoneAt rest i

/-- `GeneratorPipeline.reset_if_needed`: pops `_need_reset` from the end,
sending `None` to each recorded generator, until the list is empty. -/
def reset_if_needed (p : GeneratorPipeline) : GeneratorPipeline :=
  { p with steps := p.needReset.reverse.foldl sendNoneAt p.steps, needReset := [] }

/-- `GeneratorPipeline._init`: rebuilds the `_source` wrapper
(`islice(self.source, 0, self.max_iters)`, i.e. a fresh budget of
`max_iters` over the source generator wherever it currently stands) and
sends `None` to every step generator. -/
def init (p : GeneratorPipeline) : GeneratorPipeline :=
  { p with budget := p.max_iters,
           steps := p.steps.map fun g => (stageSend g none).1 }

/-- `GeneratorPipeline.configure(max_iters)`: stores the new cap and
reruns `_init`. -/
def configure (p : GeneratorPipeline) (max_iters : Option Nat) : GeneratorPipeline :=
  init { p with max_iters := max_iters }

/-- `GeneratorPipeline.next`: the `while True` loop, driven by `fuel`.
`(some (some v), p)` is a produced value, `(some none, p)` is the
propagated `StopIteration` of the exhausted source, `(none, p)` means the
fuel ran out before either happened. -/
def next : Nat → GeneratorPipeline → Option (Option Int) × GeneratorPipeline
  | 0, p => (none, p)
  | fuel + 1, p =>
    match sourceNext p with
    | none => (some none, p)
    | some (batch, p1) =>
      let st := p1.send batch
      let p3 := st.1.reset_if_needed
      match st.2 with
      | some v => (some (some v), p3)
      | none => next fuel p3

/-- Drives up to `t` `next()` calls (each with `fuel` loop iterations),
collecting the produced values; the `Bool` records whether exhaustion
(`StopIteration`) was observed. -/
def drain : Nat → Nat → GeneratorPipeline → List Int × GeneratorPipeline × Bool
  | 0, _, p => ([], p, false)
  | t + 1, fuel, p =>
    match next fuel p with
    | (some (some v), p1) =>
      let r := drain t fuel p1
      (v :: r.1, r.2)
    | (some none, p1) => ([], p1, true)
    | (none, p1) => ([], p1, false)

end GeneratorPipeline

/-- `GeneratorPipeline.__init__(source, *steps, max_iters)`: stores the
source and steps, an empty `_need_reset`, and calls `_init`. -/
def mkGeneratorPipeline (stream : Nat → Int) (steps : List (Option Int → Option Int))
    (max_iters : Option Nat) : GeneratorPipeline :=
  GeneratorPipeline.init
    { stream := stream
      srcPos := 0
      max_iters := max_iters
      budget := none
      steps := steps.map fun f => { f := f, pos := .fresh }
      needReset := [] }

/-- The number of steps `send` visits on an item: every step up to and
including the first one that yields the sentinel `None`, or all of them
when none does. -/
def invokedCount : List Stage → Option Int → Nat
  | [], _ => 0
  | g :: rest, processed =>
    let go := stageSend g processed
    match go.2 with
    | none => 1
    | some v => 1 + invokedCount rest (some v)

/-- The `filter_evens` step generator of
`tests/transform/test_generator_pipeline.py`: passes odd numbers through
and yields the sentinel for even ones.  (A `none` input at an awaiting
position would raise `TypeError` in Python; the pipeline never sends one
there, so the `none` branch is unreachable in the traces below.) -/
def filter_evens (v : Option Int) : Option Int :=
  match v with
  | some number => if number % 2 != 0 then some number else none
  | none => none

/-- Exact floor square root (the largest `k` with `k * k ≤ n`), agreeing
with Python's `int(math.floor(math.sqrt(n)))` wherever the float
computation is exact — in particular on the small values the pipeline
traces below reach. -/
def floorSqrt (n : Nat) : Nat :=
  ((List.range (n + 1)).filter fun k => k * k ≤ n).foldl max 0

/-- The `primes_only` step generator of
`tests/transform/test_generator_pipeline.py`: trial division over
`range(2, floor(sqrt(number)) + 1)`. -/
def primes_only (v : Option Int) : Option Int :=
  match v with
  | some number =>
    let threshold := floorSqrt number.toNat + 1
    if (List.range' 2 (threshold - 2)).all (fun x => number % (x : Int) != 0) then
      some number
    else none
  | none => none

/-- The `numbers(start=1)` source generator of the same test file:
yields 1, 2, 3, … -/
def numbers (k : Nat) : Int := (k : Int) + 1

/-! ### Helper lemmas -/

/-- A finite (`infinite = false`) arrays-iterator in state `batch_index = i`
yields exactly the slices `i, i+1, …, n-1` and then signals exhaustion,
ending with `batch_index = n` (or unchanged when already exhausted). -/
theorem runNext_finite (a : List α) (bs m e : Nat) (ssb : Bool) :
    ∀ fuel i, m - i < fuel →
      runNext fuel (⟨[a], bs, false, ssb, m, i, e⟩ : BatchArrayIterator α) =
        ((List.range' i (m - i)).map (fun j => [(a.drop (j * bs)).take bs]),
         ⟨[a], bs, false, ssb, m, max i m, e⟩, true) := by
  intro fuel
  induction fuel with
  | zero => intro i h; omega
  | succ fuel ih =>
    intro i h
    by_cases hi : m ≤ i
    · have h0 : m - i = 0 := by omega
      have hmax : max i m = i := by omega
      simp [runNext, BatchArrayIterator.next, hi, h0, hmax]
    · have hk : m - i = (m - (i + 1)) + 1 := by omega
      have hmax1 : max (i + 1) m = m := by omega
      have hmax0 : max i m = m := by omega
      simp only [runNext, BatchArrayIterator.next, if_neg hi, hmax0]
      rw [ih (i + 1) (by omega)]
      simp [take_next_batch, hk, List.range'_succ, hmax1]

/-- Same run characterization for the `files.py` iterator: a finite
(`infinite = false`) iterator whose `_array` stands at the suffix
`a.drop (i * bs)` with `_count = i` yields the slices `i, …, n_batches-1`
and then signals exhaustion. -/
theorem files_runNext_finite (a : List α) (bs m : Nat) (ssb : Bool) :
    ∀ fuel i, m - i < fuel →
      Files.runNext fuel
          (⟨a, bs, false, ssb, m, .plain (a.drop (i * bs)), i⟩ :
            Files.BatchArrayIterator α) =
        ((List.range' i (m - i)).map (fun j => (a.drop (j * bs)).take bs),
         ⟨a, bs, false, ssb, m, .plain (a.drop ((max i m) * bs)), max i m⟩, true) := by
  intro fuel
  induction fuel with
  | zero => intro i h; omega
  | succ fuel ih =>
    intro i h
    by_cases hi : m ≤ i
    · have h0 : m - i = 0 := by omega
      have hmax : max i m = i := by omega
      simp [Files.runNext, Files.BatchArrayIterator.dunderNext, hi, h0, hmax]
    · have hk : m - i = (m - (i + 1)) + 1 := by omega
      have hmax1 : max (i + 1) m = m := by omega
      have hmax0 : max i m = m := by omega
      have hdrop : (a.drop (i * bs)).drop bs = a.drop ((i + 1) * bs) := by
        rw [List.drop_drop, Nat.succ_mul, Nat.add_comm]
      simp only [Files.runNext, Files.BatchArrayIterator.dunderNext,
        Files.BatchArrayIterator.nextBatch, Files.takeFrom, hmax0]
      rw [if_neg (by simp [hi]), if_neg (by simp)]
      simp only [hdrop]
      rw [ih (i + 1) (by omega)]
      simp [hk, List.range'_succ, hmax1]

/-- For `0 < bs`, `n` elements fit in `ceil(n / bs)` batches of size `bs`. -/
theorem le_ceil_mul (n bs : Nat) (hbs : 0 < bs) :
    n ≤ ((n + bs - 1) / bs) * bs := by
  rcases n with _ | n
  · simp
  · have h1 : (n + 1 + bs - 1) / bs = n / bs + 1 := by
      have : n + 1 + bs - 1 = n + bs := by omega
      rw [this, Nat.add_div_right n hbs]
    rw [h1]
    have h2 := Nat.div_add_mod n bs
    have h3 := Nat.mod_lt n hbs
    calc n + 1 ≤ bs * (n / bs) + n % bs + 1 := by rw [h2]
      _ ≤ bs * (n / bs) + bs := by omega
      _ = (n / bs + 1) * bs := by ring


/-- Joining the `m` consecutive slices of width `bs` reassembles any list
of length at most `m * bs`. -/
theorem join_slices (bs : Nat) :
    ∀ (m : Nat) (a : List α), a.length ≤ m * bs →
      ((List.range m).map (fun j => (a.drop (j * bs)).take bs)).flatten = a := by
  intro m
  induction m with
  | zero =>
    intro a ha
    simp at ha
    simp [ha]
  | succ m ih =>
    intro a ha
    rw [List.range_succ_eq_map]
    simp only [List.map_cons, List.map_map, Nat.zero_mul, List.drop_zero,
      List.flatten_cons]
    have h1 : ∀ j : Nat, j ∈ List.range m →
        ((fun j => (a.drop (j * bs)).take bs) ∘ Nat.succ) j
          = ((a.drop bs).drop (j * bs)).take bs := by
      intro j _
      show (a.drop ((j + 1) * bs)).take bs = _
      rw [List.drop_drop, Nat.succ_mul, Nat.add_comm]
    rw [List.map_congr_left h1]
    have h3 : (a.drop bs).length ≤ m * bs := by
      have hs : (m + 1) * bs = m * bs + bs := by ring
      simp only [List.length_drop]
      omega
    rw [ih (a.drop bs) h3]
    exact List.take_append_drop bs a

/-- Every batch before the last one of a finite pass is full: if
`i + 1 < ceil(n / bs)` then the `i`-th slice has length exactly `bs`. -/
theorem slice_full (a : List α) (bs i : Nat) (hbs : 0 < bs)
    (h : i + 1 < (a.length + bs - 1) / bs) :
    ((a.drop (i * bs)).take bs).length = bs := by
  have hn0 : 0 < a.length := by
    rcases Nat.eq_zero_or_pos a.length with h0 | h0
    · rw [h0] at h
      have hz : (0 + bs - 1) / bs = 0 := Nat.div_eq_of_lt (by omega)
      omega
    · exact h0
  have hceil : (a.length + bs - 1) / bs = (a.length - 1) / bs + 1 := by
    have he : a.length + bs - 1 = (a.length - 1) + bs := by omega
    rw [he, Nat.add_div_right _ hbs]
  have h2 : (i + 1) * bs ≤ a.length - 1 := by
    rw [hceil] at h
    exact (Nat.le_div_iff_mul_le hbs).mp (by omega)
  have h4 : i * bs + bs ≤ a.length - 1 := by
    have hm : (i + 1) * bs = i * bs + bs := by ring
    omega
  simp only [List.length_take, List.length_drop]
  omega

/-! ### Claim theorems -/

/-- The full statement of claim C1, for one input sequence `a` and batch
size `bs` (writing `m` for `ceil(len a / bs)`): construction with
`infinite=False, same_size_batches=False` succeeds; the first `m + 1`
`next()` calls yield exactly the `m` contiguous positional slices in order
and then signal exhaustion; every batch but the last is full; and the
concatenation of the yielded batches is `a` itself.  (For a single input
array the Python `next` returns the tuple's head — the bare slice.) -/
def BatchRoundTrip (α : Type) (a : List α) (bs : Nat) : Prop :=
  (mkBatchArrayIterator a [] bs false false =
    .ok ⟨[a], bs, false, false, (a.length + bs - 1) / bs, 0, 0⟩) ∧
  (runNext ((a.length + bs - 1) / bs + 1)
      (⟨[a], bs, false, false, (a.length + bs - 1) / bs, 0, 0⟩ :
        BatchArrayIterator α) =
    ((List.range ((a.length + bs - 1) / bs)).map
        (fun j => [(a.drop (j * bs)).take bs]),
     ⟨[a], bs, false, false, (a.length + bs - 1) / bs,
      (a.length + bs - 1) / bs, 0⟩, true)) ∧
  (((List.range ((a.length + bs - 1) / bs)).map
      (fun j => (a.drop (j * bs)).take bs)).flatten = a) ∧
  (∀ i, i + 1 < (a.length + bs - 1) / bs →
    ((a.drop (i * bs)).take bs).length = bs) ∧
  (Files.mk a bs false false =
    .ok ⟨a, bs, false, false, (a.length + bs - 1) / bs, .plain a, 0⟩) ∧
  (Files.runNext ((a.length + bs - 1) / bs + 1)
      (⟨a, bs, false, false, (a.length + bs - 1) / bs, .plain a, 0⟩ :
        Files.BatchArrayIterator α) =
    ((List.range ((a.length + bs - 1) / bs)).map
        (fun j => (a.drop (j * bs)).take bs),
     ⟨a, bs, false, false, (a.length + bs - 1) / bs,
      .plain (a.drop ((a.length + bs - 1) / bs * bs)),
      (a.length + bs - 1) / bs⟩, true))

/-- C1: for every finite sequence and positive batch size, a
`BatchArrayIterator` with `infinite=False, same_size_batches=False` yields
exactly `ceil(n / batch_size)` batches before signalling exhaustion, each
the contiguous positional slice of the input (only the final one shorter),
and their in-order concatenation is the original sequence — for both the
`swissknife/iterators/arrays.py` and the `swissknife/files.py`
implementation. -/
theorem finite_iterator_round_trip (α : Type) (a : List α) (bs : Nat)
    (hbs : 0 < bs) : BatchRoundTrip α a bs := by
  refine ⟨?_, ?_, ?_, ?_, ?_, ?_⟩
  · simp [mkBatchArrayIterator, num_of_batches]
  · have h := runNext_finite a bs ((a.length + bs - 1) / bs) 0 false
        ((a.length + bs - 1) / bs + 1) 0 (Nat.lt_succ_of_le (Nat.sub_le _ _))
    simpa [List.range_eq_range'] using h
  · exact join_slices bs _ a (le_ceil_mul a.length bs hbs)
  · intro i hi
    exact slice_full a bs i hbs hi
  · simp [Files.mk]
  · have h := files_runNext_finite a bs ((a.length + bs - 1) / bs) false
        ((a.length + bs - 1) / bs + 1) 0 (Nat.lt_succ_of_le (Nat.sub_le _ _))
    simpa [List.range_eq_range'] using h

/-- Witness for C1 at `a = [1,2,3,4,5]`, `bs = 2`. -/
theorem finite_iterator_round_trip_witness :
    0 < 2 ∧ BatchRoundTrip Int [1, 2, 3, 4, 5] 2 :=
  ⟨by decide, finite_iterator_round_trip Int [1, 2, 3, 4, 5] 2 (by decide)⟩

/-- C7: for input of length `n` and positive `batch_size`, the reported
batch count is `floor(n / batch_size)` when `same_size_batches=True`
(constructible only with `infinite=True`) and `ceil(n / batch_size)`
otherwise, in both implementations (`_num_of_batches` in
`swissknife/iterators/arrays.py` and the inline computation in
`swissknife/files.py`; on `Nat`, `(n + bs - 1) / bs` is that ceiling). -/
theorem n_batches_formula (α : Type) (a : List α) (bs : Nat) (inf : Bool)
    (hbs : 0 < bs) :
    (mkBatchArrayIterator a [] bs true true =
      .ok ⟨[a], bs, true, true, a.length / bs, 0, 0⟩) ∧
    (mkBatchArrayIterator a [] bs inf false =
      .ok ⟨[a], bs, inf, false, (a.length + bs - 1) / bs, 0, 0⟩) ∧
    (Files.mk a bs true true =
      .ok ⟨a, bs, true, true, a.length / bs, .cyc a 0, 0⟩) ∧
    (Files.mk a bs inf false =
      .ok ⟨a, bs, inf, false, (a.length + bs - 1) / bs, .plain a, 0⟩) := by
  refine ⟨?_, ?_, ?_, ?_⟩
  · simp [mkBatchArrayIterator, num_of_batches]
  · simp [mkBatchArrayIterator, num_of_batches]
  · simp [Files.mk]
  · simp [Files.mk]

/-- Witness for C7 at `a = [1,2,3,4,5]`, `bs = 2`, `inf = false`. -/
theorem n_batches_formula_witness :
    0 < 2 ∧
    ((mkBatchArrayIterator ([1, 2, 3, 4, 5] : List Int) [] 2 true true =
       .ok ⟨[[1, 2, 3, 4, 5]], 2, true, true, 2, 0, 0⟩) ∧
     (mkBatchArrayIterator ([1, 2, 3, 4, 5] : List Int) [] 2 false false =
       .ok ⟨[[1, 2, 3, 4, 5]], 2, false, false, 3, 0, 0⟩) ∧
     (Files.mk ([1, 2, 3, 4, 5] : List Int) 2 true true =
       .ok ⟨[1, 2, 3, 4, 5], 2, true, true, 2, .cyc [1, 2, 3, 4, 5] 0, 0⟩) ∧
     (Files.mk ([1, 2, 3, 4, 5] : List Int) 2 false false =
       .ok ⟨[1, 2, 3, 4, 5], 2, false, false, 3, .plain [1, 2, 3, 4, 5], 0⟩)) :=
  ⟨by decide, n_batches_formula Int [1, 2, 3, 4, 5] 2 false (by decide)⟩

/-- C8: for every input (any element type, any companion arrays, any batch
size), constructing with `infinite=False, same_size_batches=True` fails
with the incompatible-configuration `ValueError` in both implementations;
the `Except.error` result means no iterator value exists on which a
retrieval could be attempted. -/
theorem incompatible_config_fails_construction (α : Type) (a : List α)
    (arrays : List (List α)) (bs : Nat) :
    (mkBatchArrayIterator a arrays bs false true =
      .error "Incompatible configuration: cannot guarantee same size of batches when yielding finite number of files.") ∧
    (Files.mk a bs false true =
      .error "Incompatible configuration: cannot guarantee same size of batches when yielding finite number of files.") :=
  ⟨rfl, rfl⟩

/-- C9: `IteratorMixin.__iter__` resets `_batch_index` and `_epoch_index`
to `0` (first conjunct, for arbitrary index values `b`, `e`); a finite
iterator drains to the state with `batch_index = n` (last conjunct), whose
`next()` keeps signalling exhaustion (second conjunct), and restarting it
via `__iter__` drains the full batch sequence again exactly as a fresh
iterator does (third conjunct). -/
theorem iter_restart_resets_indices (α : Type) (a : List α) (bs : Nat)
    (hbs : 0 < bs) :
    (∀ b e, BatchArrayIterator.iterStart
        (⟨[a], bs, false, false, (a.length + bs - 1) / bs, b, e⟩ :
          BatchArrayIterator α) =
      ⟨[a], bs, false, false, (a.length + bs - 1) / bs, 0, 0⟩) ∧
    (BatchArrayIterator.next
        (⟨[a], bs, false, false, (a.length + bs - 1) / bs,
          (a.length + bs - 1) / bs, 0⟩ : BatchArrayIterator α) = none) ∧
    (runNext ((a.length + bs - 1) / bs + 1)
        (BatchArrayIterator.iterStart
          (⟨[a], bs, false, false, (a.length + bs - 1) / bs,
            (a.length + bs - 1) / bs, 0⟩ : BatchArrayIterator α)) =
      runNext ((a.length + bs - 1) / bs + 1)
        (⟨[a], bs, false, false, (a.length + bs - 1) / bs, 0, 0⟩ :
          BatchArrayIterator α)) ∧
    (runNext ((a.length + bs - 1) / bs + 1)
        (⟨[a], bs, false, false, (a.length + bs - 1) / bs, 0, 0⟩ :
          BatchArrayIterator α) =
      ((List.range ((a.length + bs - 1) / bs)).map
          (fun j => [(a.drop (j * bs)).take bs]),
       ⟨[a], bs, false, false, (a.length + bs - 1) / bs,
        (a.length + bs - 1) / bs, 0⟩, true)) := by
  refine ⟨fun b e => rfl, ?_, rfl, ?_⟩
  · simp [BatchArrayIterator.next]
  · have h := runNext_finite a bs ((a.length + bs - 1) / bs) 0 false
        ((a.length + bs - 1) / bs + 1) 0 (Nat.lt_succ_of_le (Nat.sub_le _ _))
    simpa [List.range_eq_range'] using h

/-- Witness for C9 at `a = [1,2,3]`, `bs = 2` (so `n = 2` batches). -/
theorem iter_restart_resets_indices_witness :
    0 < 2 ∧
    ((∀ b e, BatchArrayIterator.iterStart
        (⟨[[1, 2, 3]], 2, false, false, 2, b, e⟩ : BatchArrayIterator Int) =
      ⟨[[1, 2, 3]], 2, false, false, 2, 0, 0⟩) ∧
    (BatchArrayIterator.next
        (⟨[[1, 2, 3]], 2, false, false, 2, 2, 0⟩ : BatchArrayIterator Int) = none) ∧
    (runNext 3 (BatchArrayIterator.iterStart
        (⟨[[1, 2, 3]], 2, false, false, 2, 2, 0⟩ : BatchArrayIterator Int)) =
      runNext 3 (⟨[[1, 2, 3]], 2, false, false, 2, 0, 0⟩ : BatchArrayIterator Int)) ∧
    (runNext 3 (⟨[[1, 2, 3]], 2, false, false, 2, 0, 0⟩ : BatchArrayIterator Int) =
      ((List.range 2).map (fun j => [(([1, 2, 3] : List Int).drop (j * 2)).take 2]),
       ⟨[[1, 2, 3]], 2, false, false, 2, 2, 0⟩, true))) :=
  ⟨by decide, iter_restart_resets_indices Int [1, 2, 3] 2 (by decide)⟩

/-- C2 (evidence of the divergence): with `infinite=True,
same_size_batches=True` and an empty input, both implementations set
`n_batches = 0` but no `next()` call ever signals exhaustion — every call
returns an empty batch (the arrays implementation also increments the
epoch counter on each call), so draining never terminates. -/
theorem empty_same_size_never_exhausts :
    (mkBatchArrayIterator ([] : List Int) [] 2 true true =
      .ok ⟨[[]], 2, true, true, 0, 0, 0⟩) ∧
    (runNext 3 (⟨[[]], 2, true, true, 0, 0, 0⟩ : BatchArrayIterator Int) =
      ([[[]], [[]], [[]]], ⟨[[]], 2, true, true, 0, 1, 3⟩, false)) ∧
    (Files.mk ([] : List Int) 2 true true =
      .ok ⟨[], 2, true, true, 0, .cyc [] 0, 0⟩) ∧
    (Files.runNext 3
        (⟨[], 2, true, true, 0, .cyc [] 0, 0⟩ : Files.BatchArrayIterator Int) =
      ([[], [], []], ⟨[], 2, true, true, 0, .plain [], 3⟩, false)) :=
  ⟨rfl, rfl, rfl, rfl⟩

/-- C3 (evidence of the divergence): with `infinite=True,
same_size_batches=True`, neither implementation wraps around the input.
For `batch_size = 2 > n = 1` (input `[7]`) the arrays implementation
yields the short batch `[7]` (length `1 ≠ batch_size`) on every call and
the files implementation yields `[7]` once and then empty batches; for
input `[0, 1, 2]` the trailing element `2` beyond
`floor(n / bs) * bs = 2` is never part of any yielded batch. -/
theorem same_size_infinite_no_wrap :
    (mkBatchArrayIterator ([7] : List Int) [] 2 true true =
      .ok ⟨[[7]], 2, true, true, 0, 0, 0⟩) ∧
    (runNext 3 (⟨[[7]], 2, true, true, 0, 0, 0⟩ : BatchArrayIterator Int) =
      ([[[7]], [[7]], [[7]]], ⟨[[7]], 2, true, true, 0, 1, 3⟩, false)) ∧
    ((runNext 3 (⟨[[7]], 2, true, true, 0, 0, 0⟩ : BatchArrayIterator Int)).1.map
        (fun b => (b.headD []).length) = [1, 1, 1]) ∧
    (Files.mk ([7] : List Int) 2 true true =
      .ok ⟨[7], 2, true, true, 0, .cyc [7] 0, 0⟩) ∧
    (Files.runNext 3
        (⟨[7], 2, true, true, 0, .cyc [7] 0, 0⟩ : Files.BatchArrayIterator Int) =
      ([[7], [], []], ⟨[7], 2, true, true, 0, .plain [], 3⟩, false)) ∧
    (mkBatchArrayIterator ([0, 1, 2] : List Int) [] 2 true true =
      .ok ⟨[[0, 1, 2]], 2, true, true, 1, 0, 0⟩) ∧
    (runNext 4 (⟨[[0, 1, 2]], 2, true, true, 1, 0, 0⟩ : BatchArrayIterator Int) =
      ([[[0, 1]], [[0, 1]], [[0, 1]], [[0, 1]]],
       ⟨[[0, 1, 2]], 2, true, true, 1, 1, 3⟩, false)) ∧
    ((2 : Int) ∉
      (runNext 4 (⟨[[0, 1, 2]], 2, true, true, 1, 0, 0⟩ :
        BatchArrayIterator Int)).1.flatten.flatten) ∧
    (Files.mk ([0, 1, 2] : List Int) 2 true true =
      .ok ⟨[0, 1, 2], 2, true, true, 1, .cyc [0, 1, 2] 0, 0⟩) ∧
    (Files.runNext 4
        (⟨[0, 1, 2], 2, true, true, 1, .cyc [0, 1, 2] 0, 0⟩ :
          Files.BatchArrayIterator Int) =
      ([[0, 1], [0, 1], [0, 1], [0, 1]],
       ⟨[0, 1, 2], 2, true, true, 1, .plain [2], 1⟩, false)) ∧
    ((2 : Int) ∉
      (Files.runNext 4
        (⟨[0, 1, 2], 2, true, true, 1, .cyc [0, 1, 2] 0, 0⟩ :
          Files.BatchArrayIterator Int)).1.flatten) := by
  refine ⟨rfl, rfl, rfl, rfl, rfl, rfl, rfl, by decide, rfl, rfl, by decide⟩

/-- C6: a `FilesIterator` over a directory listing exactly
`a.txt, b.txt, c.txt` with `pattern="txt"` and `batch_size=1` is
constructed successfully (spec-modelled `glob`, see its doc comment),
and draining it yields three singleton batches, then exhaustion, the
batches' contents together being exactly the three files. -/
theorem files_iterator_singleton_batches :
    (mkFilesIterator ["a.txt", "b.txt", "c.txt"] "txt" 1 false false =
      .ok ⟨["a.txt", "b.txt", "c.txt"], "txt", 1, false, false, ["txt"],
           ["a.txt", "b.txt", "c.txt"], 3,
           ⟨[["a.txt", "b.txt", "c.txt"]], 1, false, false, 3, 0, 0⟩⟩) ∧
    ((runNext 4 (⟨[["a.txt", "b.txt", "c.txt"]], 1, false, false, 3, 0, 0⟩ :
        BatchArrayIterator String)).1 =
      [[["a.txt"]], [["b.txt"]], [["c.txt"]]]) ∧
    ((runNext 4 (⟨[["a.txt", "b.txt", "c.txt"]], 1, false, false, 3, 0, 0⟩ :
        BatchArrayIterator String)).2.2 = true) ∧
    (∀ b ∈ (runNext 4 (⟨[["a.txt", "b.txt", "c.txt"]], 1, false, false, 3, 0, 0⟩ :
        BatchArrayIterator String)).1, (b.headD []).length = 1) ∧
    (((runNext 4 (⟨[["a.txt", "b.txt", "c.txt"]], 1, false, false, 3, 0, 0⟩ :
        BatchArrayIterator String)).1.map (fun b => b.headD [])).flatten.Perm
      ["a.txt", "b.txt", "c.txt"]) := by
  refine ⟨rfl, rfl, rfl, by decide, by decide⟩

/-! ### Pipeline helper lemmas -/

@[simp] theorem send_srcPos (p : GeneratorPipeline) (x : Int) :
    (p.send x).1.srcPos = p.srcPos := rfl

@[simp] theorem send_budget (p : GeneratorPipeline) (x : Int) :
    (p.send x).1.budget = p.budget := rfl

@[simp] theorem send_stream (p : GeneratorPipeline) (x : Int) :
    (p.send x).1.stream = p.stream := rfl

@[simp] theorem reset_srcPos (p : GeneratorPipeline) :
    p.reset_if_needed.srcPos = p.srcPos := rfl

@[simp] theorem reset_budget (p : GeneratorPipeline) :
    p.reset_if_needed.budget = p.budget := rfl

@[simp] theorem reset_stream (p : GeneratorPipeline) :
    p.reset_if_needed.stream = p.stream := rfl

/-- Source-pull accounting for one `next()` call: the remaining budget
decreases exactly as the source position advances, and the position never
moves backwards. -/
theorem next_budget_invariant (fuel : Nat) :
    ∀ (p : GeneratorPipeline) (b : Nat), p.budget = some b →
      ∃ b2, (GeneratorPipeline.next fuel p).2.budget = some b2 ∧
        (GeneratorPipeline.next fuel p).2.srcPos + b2 = p.srcPos + b ∧
        p.srcPos ≤ (GeneratorPipeline.next fuel p).2.srcPos := by
  induction fuel with
  | zero => intro p b hb; exact ⟨b, hb, rfl, Nat.le_refl _⟩
  | succ fuel ih =>
    intro p b hb
    rcases b with _ | b
    · simp only [GeneratorPipeline.next, GeneratorPipeline.sourceNext, hb]
      exact ⟨0, rfl, rfl, Nat.le_refl _⟩
    · simp only [GeneratorPipeline.next, GeneratorPipeline.sourceNext, hb]
      cases hs : ((({ p with srcPos := p.srcPos + 1, budget := some b } :
          GeneratorPipeline).send (p.stream p.srcPos)).2) with
      | some v =>
        simp only [hs]
        refine ⟨b, rfl, ?_, ?_⟩
        · simp only [reset_srcPos, send_srcPos]; omega
        · simp only [reset_srcPos, send_srcPos]; omega
      | none =>
        simp only [hs]
        have hb2 : ((({ p with srcPos := p.srcPos + 1, budget := some b} :
            GeneratorPipeline).send (p.stream p.srcPos)).1.reset_if_needed).budget
              = some b := by simp
        obtain ⟨b2, h1, h2, h3⟩ := ih _ b hb2
        simp only [reset_srcPos, send_srcPos] at h2 h3
        exact ⟨b2, h1, by omega, by omega⟩

/-- Source-pull accounting over a whole `drain` run. -/
theorem drain_budget_invariant (t : Nat) (fuel : Nat) :
    ∀ (p : GeneratorPipeline) (b : Nat), p.budget = some b →
      ∃ b2, (GeneratorPipeline.drain t fuel p).2.1.budget = some b2 ∧
        (GeneratorPipeline.drain t fuel p).2.1.srcPos + b2 = p.srcPos + b ∧
        p.srcPos ≤ (GeneratorPipeline.drain t fuel p).2.1.srcPos := by
  induction t with
  | zero => intro p b hb; exact ⟨b, hb, rfl, Nat.le_refl _⟩
  | succ t ih =>
    intro p b hb
    obtain ⟨b1, h1, h2, h3⟩ := next_budget_invariant fuel p b hb
    rcases hn : GeneratorPipeline.next fuel p with ⟨r, q⟩
    rw [hn] at h1 h2 h3
    simp only [GeneratorPipeline.drain, hn]
    rcases r with _ | r
    · exact ⟨b1, h1, h2, h3⟩
    · rcases r with _ | v
      · exact ⟨b1, h1, h2, h3⟩
      · dsimp only at h1 h2 h3
        obtain ⟨b2, g1, g2, g3⟩ := ih q b1 h1
        refine ⟨b2, ?_, ?_, ?_⟩
        · exact g1
        · show (GeneratorPipeline.drain t fuel q).2.1.srcPos + b2 = p.srcPos + b
          omega
        · show p.srcPos ≤ (GeneratorPipeline.drain t fuel q).2.1.srcPos
          omega

/-- C5: a pipeline constructed with `max_iters = m` never pulls more than
`m` items from its source over its whole lifetime (`srcPos` counts the
source pulls since construction), whatever the stream, the stages and the
number of retrievals; and concretely, with the infinite integer source
starting at 1, the even-filtering stage and the prime-filtering stage,
`max_iters = 5` yields exactly `[1, 3, 5]` and then signals exhaustion. -/
theorem max_iters_caps_source_pulls :
    (∀ (stream : Nat → Int) (fs : List (Option Int → Option Int)) (m t fuel : Nat),
      (GeneratorPipeline.drain t fuel
        (mkGeneratorPipeline stream fs (some m))).2.1.srcPos ≤ m) ∧
    ((GeneratorPipeline.drain 4 10
        (mkGeneratorPipeline numbers [filter_evens, primes_only] (some 5))).1 =
      [1, 3, 5]) ∧
    ((GeneratorPipeline.drain 4 10
        (mkGeneratorPipeline numbers [filter_evens, primes_only] (some 5))).2.2 =
      true) := by
  refine ⟨?_, by decide, by decide⟩
  intro stream fs m t fuel
  obtain ⟨b2, h1, h2, h3⟩ :=
    drain_budget_invariant t fuel (mkGeneratorPipeline stream fs (some m)) m rfl
  have hz : (mkGeneratorPipeline stream fs (some m)).srcPos = 0 := rfl
  omega

/-- C10: `configure(max_iters=m)` leaves the underlying source generator
untouched (same stream, same position) while installing a fresh `islice`
budget of `m` and re-priming every stage with one `send(None)`; every pull
reads the stream at the current position and advances it by one, and any
amount of retrieval after the `configure` call keeps the source position
between its configure-time value and that value plus `m` — so items pulled
before `configure` are never produced again and at most `m` further items
are pulled. -/
theorem configure_keeps_source_position (p : GeneratorPipeline) (m : Nat) :
    ((p.configure (some m)).srcPos = p.srcPos) ∧
    ((p.configure (some m)).stream = p.stream) ∧
    ((p.configure (some m)).budget = some m) ∧
    ((p.configure (some m)).steps = p.steps.map (fun g => (stageSend g none).1)) ∧
    (∀ (q q2 : GeneratorPipeline) (v : Int),
      GeneratorPipeline.sourceNext q = some (v, q2) →
        v = q.stream q.srcPos ∧ q2.srcPos = q.srcPos + 1 ∧ q2.stream = q.stream) ∧
    (∀ t fuel, p.srcPos ≤
      (GeneratorPipeline.drain t fuel (p.configure (some m))).2.1.srcPos) ∧
    (∀ t fuel,
      (GeneratorPipeline.drain t fuel (p.configure (some m))).2.1.srcPos ≤
        p.srcPos + m) := by
  refine ⟨rfl, rfl, rfl, rfl, ?_, ?_, ?_⟩
  · intro q q2 v h
    rcases hb : q.budget with _ | b
    · simp only [GeneratorPipeline.sourceNext, hb] at h
      injection h with h2
      rw [Prod.mk.injEq] at h2
      obtain ⟨h3, h4⟩ := h2
      subst h3
      subst h4
      exact ⟨rfl, rfl, rfl⟩
    · rcases b with _ | b
      · simp only [GeneratorPipeline.sourceNext, hb] at h
        exact Option.noConfusion h
      · simp only [GeneratorPipeline.sourceNext, hb] at h
        injection h with h2
        rw [Prod.mk.injEq] at h2
        obtain ⟨h3, h4⟩ := h2
        subst h3
        subst h4
        exact ⟨rfl, rfl, rfl⟩
  · intro t fuel
    obtain ⟨b2, h1, h2, h3⟩ :=
      drain_budget_invariant t fuel (p.configure (some m)) m rfl
    exact h3
  · intro t fuel
    obtain ⟨b2, h1, h2, h3⟩ :=
      drain_budget_invariant t fuel (p.configure (some m)) m rfl
    have hc : (p.configure (some m)).srcPos = p.srcPos := rfl
    omega

/-- Witness for C10 at a concrete pipeline (source advanced to position 0)
and `m = 2`: applies the theorem and projects nothing away. -/
theorem configure_keeps_source_position_witness :
    (((mkGeneratorPipeline numbers [filter_evens] (some 5)).configure (some 2)).srcPos =
      (mkGeneratorPipeline numbers [filter_evens] (some 5)).srcPos) ∧
    (((mkGeneratorPipeline numbers [filter_evens] (some 5)).configure (some 2)).stream =
      (mkGeneratorPipeline numbers [filter_evens] (some 5)).stream) ∧
    (((mkGeneratorPipeline numbers [filter_evens] (some 5)).configure (some 2)).budget =
      some 2) ∧
    (((mkGeneratorPipeline numbers [filter_evens] (some 5)).configure (some 2)).steps =
      (mkGeneratorPipeline numbers [filter_evens] (some 5)).steps.map
        (fun g => (stageSend g none).1)) ∧
    (∀ (q q2 : GeneratorPipeline) (v : Int),
      GeneratorPipeline.sourceNext q = some (v, q2) →
        v = q.stream q.srcPos ∧ q2.srcPos = q.srcPos + 1 ∧ q2.stream = q.stream) ∧
    (∀ t fuel, (mkGeneratorPipeline numbers [filter_evens] (some 5)).srcPos ≤
      (GeneratorPipeline.drain t fuel
        ((mkGeneratorPipeline numbers [filter_evens] (some 5)).configure (some 2))).2.1.srcPos) ∧
    (∀ t fuel,
      (GeneratorPipeline.drain t fuel
        ((mkGeneratorPipeline numbers [filter_evens] (some 5)).configure (some 2))).2.1.srcPos ≤
        (mkGeneratorPipeline numbers [filter_evens] (some 5)).srcPos + 2) :=
  configure_keeps_source_position (mkGeneratorPipeline numbers [filter_evens] (some 5)) 2

/-- The indices `send` appends to `_need_reset` are exactly
`i, i+1, …, i + k - 1` where `k` is the number of steps the loop visits. -/
theorem sendLoop_indices :
    ∀ (fs : List Stage) (i : Nat) (v : Option Int),
      (GeneratorPipeline.sendLoop fs i v).2.1 = List.range' i (invokedCount fs v) := by
  intro fs
  induction fs with
  | nil => intro i v; simp [GeneratorPipeline.sendLoop, invokedCount]
  | cons g rest ih =>
    intro i v
    simp only [GeneratorPipeline.sendLoop, invokedCount]
    cases hgo : (stageSend g v).2 with
    | none => simp [hgo]
    | some w =>
      simp only [hgo, ih (i + 1) (some w)]
      rw [show 1 + invokedCount rest (some w) = invokedCount rest (some w) + 1 by omega]
      rw [List.range'_succ]

/-- Steps beyond the ones the loop visits are left untouched by `send`. -/
theorem sendLoop_untouched :
    ∀ (fs : List Stage) (i : Nat) (v : Option Int) (j : Nat) (d : Stage),
      invokedCount fs v ≤ j →
      ((GeneratorPipeline.sendLoop fs i v).1).getD j d = fs.getD j d := by
  intro fs
  induction fs with
  | nil => intro i v j d _; simp [GeneratorPipeline.sendLoop]
  | cons g rest ih =>
    intro i v j d hj
    simp only [GeneratorPipeline.sendLoop, invokedCount] at hj ⊢
    cases hgo : (stageSend g v).2 with
    | none =>
      simp only [hgo] at hj ⊢
      rcases j with _ | j
      · omega
      · simp [List.getD_cons_succ]
    | some w =>
      simp only [hgo] at hj ⊢
      rcases j with _ | j
      · omega
      · simp only [List.getD_cons_succ]
        exact ih (i + 1) (some w) j d (by omega)

/-- `sendNoneAt` only touches the step at its index. -/
theorem sendNoneAt_getD_ne :
    ∀ (ss : List Stage) (i j : Nat) (d : Stage), i ≠ j →
      (GeneratorPipeline.sendNoneAt ss i).getD j d = ss.getD j d := by
  intro ss
  induction ss with
  | nil => intro i j d _; rfl
  | cons g rest ih =>
    intro i j d hij
    rcases i with _ | i
    · rcases j with _ | j
      · omega
      · simp [GeneratorPipeline.sendNoneAt, List.getD_cons_succ]
    · rcases j with _ | j
      · simp [GeneratorPipeline.sendNoneAt, List.getD_cons_zero]
      · simp only [GeneratorPipeline.sendNoneAt, List.getD_cons_succ]
        exact ih i j d (by omega)

/-- Folding resets over indices all different from `j` leaves step `j`
untouched. -/
theorem foldl_sendNoneAt_untouched :
    ∀ (L : List Nat) (ss : List Stage) (j : Nat) (d : Stage),
      (∀ x ∈ L, x ≠ j) →
      (L.foldl GeneratorPipeline.sendNoneAt ss).getD j d = ss.getD j d := by
  intro L
  induction L with
  | nil => intro ss j d _; rfl
  | cons x L ih =>
    intro ss j d hall
    simp only [List.foldl_cons]
    rw [ih _ j d (fun y hy => hall y (List.mem_cons_of_mem x hy))]
    exact sendNoneAt_getD_ne ss x j d (hall x (List.mem_cons_self x L))

/-- C4 counterexample: a pipeline with the single stage that yields the
sentinel for every item.  On item `7`, the stage produces the sentinel
(`send` returns `none`) — yet it is recorded in `_need_reset` and
`reset_if_needed` does send it the neutral `send(None)`, observable as its
paused position flipping from `holding` back to `awaiting`.  Under the
claim, a stage that produced the sentinel would not be sent the reset
signal, so the recorded reset set would be empty. -/
theorem sentinel_stage_receives_reset :
    (((mkGeneratorPipeline numbers [fun _ => none] none).send 7).2 = none) ∧
    (((mkGeneratorPipeline numbers [fun _ => none] none).send 7).1.needReset = [0]) ∧
    (((mkGeneratorPipeline numbers [fun _ => none] none).send 7).1.steps.map
        Stage.pos = [.holding]) ∧
    (((mkGeneratorPipeline numbers [fun _ => none] none).send
        7).1.reset_if_needed.steps.map Stage.pos = [.awaiting]) :=
  ⟨rfl, rfl, rfl, rfl⟩

/-- C4 amended: starting from an empty `_need_reset` (the state in which
`next()` always calls `send`), the stages sent the reset signal before the
next item are exactly the ones that were sent the current item — indices
`0, …, k-1` where `k` counts every stage up to and including the first
sentinel producer (all stages when none produced the sentinel); stages
skipped by the short-circuit are untouched by both `send` and the reset. -/
theorem reset_exactly_invoked_stages (p : GeneratorPipeline) (batch : Int)
    (h : p.needReset = []) :
    (((p.send batch).1).needReset =
      List.range (invokedCount p.steps (some batch))) ∧
    (((p.send batch).1.reset_if_needed).needReset = []) ∧
    (∀ j d, invokedCount p.steps (some batch) ≤ j →
      ((p.send batch).1.reset_if_needed).steps.getD j d = p.steps.getD j d) := by
  refine ⟨?_, rfl, ?_⟩
  · show p.needReset ++ (GeneratorPipeline.sendLoop p.steps 0 (some batch)).2.1 = _
    rw [h, sendLoop_indices p.steps 0 (some batch), List.nil_append,
      List.range_eq_range']
  · intro j d hj
    show (((p.send batch).1).needReset.reverse.foldl GeneratorPipeline.sendNoneAt
        ((p.send batch).1).steps).getD j d = p.steps.getD j d
    have hnr : ((p.send batch).1).needReset =
        List.range (invokedCount p.steps (some batch)) := by
      show p.needReset ++ (GeneratorPipeline.sendLoop p.steps 0 (some batch)).2.1 = _
      rw [h, sendLoop_indices p.steps 0 (some batch), List.nil_append,
        List.range_eq_range']
    rw [hnr]
    rw [foldl_sendNoneAt_untouched _ _ j d ?_]
    · exact sendLoop_untouched p.steps 0 (some batch) j d hj
    · intro x hx
      rw [List.mem_reverse, List.mem_range] at hx
      omega

/-- Witness for C4 amended at a two-stage pipeline on item `2` (the first
stage sentinels it out, so `invokedCount = 1`). -/
theorem reset_exactly_invoked_stages_witness :
    ((mkGeneratorPipeline numbers [filter_evens, primes_only] none).needReset = []) ∧
    ((((mkGeneratorPipeline numbers [filter_evens, primes_only] none).send
        2).1).needReset =
      List.range (invokedCount
        (mkGeneratorPipeline numbers [filter_evens, primes_only] none).steps
        (some 2))) ∧
    ((((mkGeneratorPipeline numbers [filter_evens, primes_only]
        none).send 2).1.reset_if_needed).needReset = []) ∧
    (∀ j d, invokedCount
          (mkGeneratorPipeline numbers [filter_evens, primes_only] none).steps
          (some 2) ≤ j →
        (((mkGeneratorPipeline numbers [filter_evens, primes_only] none).send
            2).1.reset_if_needed).steps.getD j d =
          (mkGeneratorPipeline numbers [filter_evens, primes_only]
            none).steps.getD j d) :=
  ⟨rfl,
   (reset_exactly_invoked_stages
     (mkGeneratorPipeline numbers [filter_evens, primes_only] none) 2 rfl).1,
   (reset_exactly_invoked_stages
     (mkGeneratorPipeline numbers [filter_evens, primes_only] none) 2 rfl).2.1,
   (reset_exactly_invoked_stages
     (mkGeneratorPipeline numbers [filter_evens, primes_only] none) 2 rfl).2.2⟩
